import Mathlib

/-!
Verification of the `helm-push` plugin (`cmd/helmpush/main.go`) against its
natural-language specification.  The Go program is shallowly embedded: each Go
function that the claims concern is translated into a Lean definition, with the
process environment, the filesystem and the network collaborators passed in as
explicit parameters, and Go's `(value, error)` returns rendered as `Except` or
`Option` values.  Strings are Lean `String`s (lists of characters); machine
integers do not occur in the modelled code.
-/

/-- Embedding of the `pushCmd` struct of main.go lines 25-40: the effective
settings of one invocation.  Field names follow the Go source. -/
structure PushCmd where
  chartName          : String := ""
  chartVersion       : String := ""
  repoName           : String := ""
  username           : String := ""
  password           : String := ""
  accessToken        : String := ""
  authHeader         : String := ""
  contextPath        : String := ""
  forceUpload        : Bool := false
  useHTTP            : Bool := false
  caFile             : String := ""
  certFile           : String := ""
  keyFile            : String := ""
  InsecureSkipVerify : Bool := false
  deriving Repr, DecidableEq

/-- Embedding of the `context` struct of main.go lines 47-50: one named entry of
the `.cfconfig` credentials file. -/
structure CfContext where
  name  : String := ""
  token : String := ""
  deriving Repr, DecidableEq

/-- Embedding of the `config` struct of main.go lines 42-45: the parsed
`.cfconfig` credentials file.  The Go `map[string]context` is modelled as an
association list; its order stands for one (arbitrary) Go map iteration
order. -/
structure Config where
  currentContext : String := ""
  contexts       : List (String × CfContext) := []
  deriving Repr, DecidableEq

/-- The ways the `.cfconfig` lookup of main.go lines 145-168 can observe the
environment: `user.Current` failing, the file missing (`os.Stat`), the file
unreadable (`ioutil.ReadFile`), the contents not unmarshalling, or a
successfully parsed `Config`. -/
inductive CfconfigState where
  | noUser
  | missing
  | unreadable
  | malformed
  | parsed (c : Config)
  deriving Repr, DecidableEq

/-- Model of Go `strconv.ParseBool`: `some` of the parsed value on the listed
literals, `none` (an error) otherwise. -/
def strconvParseBool : String → Option Bool
  | "1" | "t" | "T" | "TRUE" | "true" | "True" => some true
  | "0" | "f" | "F" | "FALSE" | "false" | "False" => some false
  | _ => none

/-- Embedding of `setAccessTokenFromConfigFile`, main.go lines 145-168: every
failure to read or parse `.cfconfig` returns the settings unchanged; on a
parsed file, the first context (in iteration order) whose `name` equals the
file's `current-context` supplies the access token, and no entry matching
leaves the settings unchanged. -/
def setAccessTokenFromConfigFile (st : CfconfigState) (p : PushCmd) : PushCmd :=
  match st with
  | .noUser => p
  | .missing => p
  | .unreadable => p
  | .malformed => p
  | .parsed c =>
    match (c.contexts.map Prod.snd).find? (fun ctx => ctx.name = c.currentContext) with
    | some ctx => { p with accessToken := ctx.token }
    | none => p

/-- Embedding of main.go lines 107-138, the environment-variable phase of
`setFieldsFromEnv`.  `env` is `os.LookupEnv`.  Each string field takes the
environment value only when the flag value is empty (`ok && p.field == ""`);
each boolean field is assigned `strconv.ParseBool` of the environment value
whenever the variable is present, the parse error being discarded
(`p.useHTTP, _ = strconv.ParseBool(v)`), so an unparsable value yields
`false`.  The ten updates of the Go source are independent of one another and
are rendered as a single record update. -/
def setEnvFields (env : String → Option String) (p : PushCmd) : PushCmd :=
  let stringField := fun (cur : String) (key : String) =>
    match env key with
    | some v => if cur = "" then v else cur
    | none => cur
  let boolField := fun (cur : Bool) (key : String) =>
    match env key with
    | some v => (strconvParseBool v).getD false
    | none => cur
  { p with
    username := stringField p.username "HELM_REPO_USERNAME"
    password := stringField p.password "HELM_REPO_PASSWORD"
    accessToken := stringField p.accessToken "HELM_REPO_ACCESS_TOKEN"
    authHeader := stringField p.authHeader "HELM_REPO_AUTH_HEADER"
    contextPath := stringField p.contextPath "HELM_REPO_CONTEXT_PATH"
    useHTTP := boolField p.useHTTP "HELM_REPO_USE_HTTP"
    caFile := stringField p.caFile "HELM_REPO_CA_FILE"
    certFile := stringField p.certFile "HELM_REPO_CERT_FILE"
    keyFile := stringField p.keyFile "HELM_REPO_KEY_FILE"
    InsecureSkipVerify := boolField p.InsecureSkipVerify "HELM_REPO_INSECURE" }

/-- Embedding of `setFieldsFromEnv`, main.go lines 106-143: the
environment-variable phase followed by the credentials-file fallback, which is
attempted only when the access token is still empty (lines 140-142). -/
def setFieldsFromEnv (env : String → Option String) (st : CfconfigState)
    (p : PushCmd) : PushCmd :=
  let p1 := setEnvFields env p
  if p1.accessToken = "" then setAccessTokenFromConfigFile st p1 else p1

/-- An HTTP response as the response handlers of main.go see it: the status
code and the fully read body (`ioutil.ReadAll(resp.Body)` is modelled as
always succeeding with these bytes). -/
structure HTTPResponse where
  statusCode : Nat
  body : String
  deriving Repr, DecidableEq

/-- Whitespace skipping of the JSON grammar. -/
def jsonSkipWS (l : List Char) : List Char :=
  l.dropWhile (fun ch => [' ', '\t', '\n', '\r'].contains ch)

/-- Decoding of a single-character JSON string escape (the `\uXXXX` form is not
modelled). -/
def jsonEscChar (esc : Char) : Option Char :=
  if esc = '"' ∨ esc = '\\' ∨ esc = '/' then some esc
  else if esc = 'n' then some '\n'
  else if esc = 't' then some '\t'
  else if esc = 'r' then some '\r'
  else none

/-- Parses the remainder of a JSON string literal (the opening quote already
consumed), returning the decoded characters and the rest of the input. -/
def jsonParseStringRest : List Char → Option (List Char × List Char)
  | [] => none
  | '"' :: tl => some ([], tl)
  | '\\' :: esc :: tl =>
    (jsonEscChar esc).bind fun dec =>
      (jsonParseStringRest tl).map fun pr => (dec :: pr.1, pr.2)
  | '\\' :: [] => none
  | ch :: tl =>
    (jsonParseStringRest tl).map fun pr => (ch :: pr.1, pr.2)

/-- Parses one `"key" : "value"` member of a JSON object. -/
def jsonParseMember (l : List Char) : Option ((String × String) × List Char) :=
  match jsonSkipWS l with
  | '"' :: rest =>
    match jsonParseStringRest rest with
    | some (key, rest2) =>
      match jsonSkipWS rest2 with
      | ':' :: rest3 =>
        match jsonSkipWS rest3 with
        | '"' :: rest4 =>
          match jsonParseStringRest rest4 with
          | some (val, rest5) => some ((String.mk key, String.mk val), rest5)
          | none => none
        | _ => none
      | _ => none
    | none => none
  | _ => none

/-- Parses the members of a JSON object up to and including the closing brace.
`fuel` bounds the recursion and exceeds the input length at every call made
by `jsonErrorEnvelope`. -/
def jsonParseMembers : Nat → List Char → Option (List (String × String) × List Char)
  | 0, _ => none
  | fuel + 1, l =>
    match jsonParseMember l with
    | none => none
    | some (kv, rest) =>
      match jsonSkipWS rest with
      | ',' :: rest2 =>
        match jsonParseMembers fuel rest2 with
        | some (kvs, r) => some (kv :: kvs, r)
        | none => none
      | '}' :: rest2 => some ([kv], rest2)
      | _ => none

/-- Model of Go `encoding/json` unmarshalling of a body into
`struct { Error string }` at main.go lines 331-334, for bodies whose members
are string-valued: `none` when unmarshalling fails, otherwise `some` of the
value of the last `"error"` member (Go keeps the last duplicate), or `some ""`
when no such member exists (the zero value of the field). -/
def jsonErrorEnvelope (s : String) : Option String :=
  match jsonSkipWS s.data with
  | '{' :: rest =>
    match jsonSkipWS rest with
    | '}' :: rest2 => if jsonSkipWS rest2 = [] then some "" else none
    | r =>
      match jsonParseMembers (r.length + 1) r with
      | some (kvs, rest2) =>
        if jsonSkipWS rest2 = [] then
          some ((((kvs.filter (fun kv => kv.1 = "error")).getLast?).map Prod.snd).getD "")
        else none
      | none => none
  | _ => none

/-- Embedding of `getChartmuseumError`, main.go lines 330-339: the error built
from a failure body and status code.  The fallback fires when unmarshalling
errs or the decoded `error` field is empty (`err != nil || er.Error == ""`). -/
def getChartmuseumError (b : String) (code : Nat) : String :=
  match jsonErrorEnvelope b with
  | none => s!"{code}: could not properly parse response JSON: {b}"
  | some e =>
    if e = "" then s!"{code}: could not properly parse response JSON: {b}"
    else s!"{code}: {e}"

/-- Embedding of `handlePushResponse`, main.go lines 305-315.  The returned
`String` on success is the bytes written to standard output
(`fmt.Println("Done.")` appends a newline). -/
def handlePushResponse (resp : HTTPResponse) : Except String String :=
  if resp.statusCode ≠ 201 then
    .error (getChartmuseumError resp.body resp.statusCode)
  else
    .ok "Done.\n"

/-- Embedding of `handleDownloadResponse`, main.go lines 317-328.  On status
200 the body is written to standard output verbatim (`fmt.Print`, nothing
appended). -/
def handleDownloadResponse (resp : HTTPResponse) : Except String String :=
  if resp.statusCode ≠ 200 then
    .error (getChartmuseumError resp.body resp.statusCode)
  else
    .ok resp.body

/-- Model of Go `strings.Split(s, "/")` (main.go line 258) for the single
character separator: the list of segments between occurrences of `sep`, empty
segments kept, `[""]` on the empty string. -/
def goSplit (sep : Char) (s : String) : List String :=
  (s.data.splitOn sep).map String.mk

/-- Model of Go `strings.Join(parts, sep)` (main.go line 272). -/
def goJoin (sep : String) : List String → String
  | [] => ""
  | [x] => x
  | x :: y :: xs => x ++ sep ++ goJoin sep (y :: xs)

/-- Embedding of the path decomposition of `download`, main.go lines 258-272:
from the parsed URL path, the derived file path (`filePath`) and the new base
endpoint path kept on the URL, or `none` for the `invalid file url` error when
the split yields at most one part.  The Go in-place mutation of `filePath` and
`numRemoveParts` is rendered as one branch on `parts[numParts-2] == "charts"`;
the `getD` defaults are never used since both indices are in bounds. -/
def downloadDecompose (urlPath : String) : Option (String × String) :=
  let parts := goSplit '/' urlPath
  let numParts := parts.length
  if numParts ≤ 1 then none
  else if parts.getD (numParts - 2) "" = "charts" then
    some (goJoin "/" (parts.take (numParts - 2)),
          "charts/" ++ parts.getD (numParts - 1) "")
  else
    some (goJoin "/" (parts.take (numParts - 1)),
          parts.getD (numParts - 1) "")

/-- Model of the Go standard library `net/url.Parse` path component
(main.go line 253) for strings carrying the `cm://` marker scheme: everything
from the first `/` after the 5-character `cm://` prefix, query and fragment
excluded.  Percent-decoding is not modelled.  The path is empty when the
remainder holds no `/`. -/
def cmURLPath (u : String) : String :=
  String.mk (((u.data.drop 5).takeWhile (fun c => c != '?' && c != '#')).dropWhile
    (fun c => c != '/'))

/-- Model of Go `strings.Replace(s, old, new, 1)` on character lists, for a
nonempty `old`: the first occurrence of `old` is replaced by `new`, everything
else being kept; a list without an occurrence is returned unchanged. -/
def replaceOnceList (old new : List Char) : List Char → List Char
  | [] => []
  | c :: cs =>
    if old.isPrefixOf (c :: cs) then new ++ (c :: cs).drop old.length
    else c :: replaceOnceList old new cs

/-- Model of Go `strings.Replace(s, old, new, 1)` (main.go lines 210 and 212)
for a nonempty `old`. -/
def replaceOnce (s old new : String) : String :=
  String.mk (replaceOnceList old.data new.data s.data)

/-- Embedding of main.go lines 207-213: the URL handed to the ChartMuseum
client, obtained from the stored repository URL by rewriting the `cm://`
marker to `http://` when `useHTTP` is set and to `https://` otherwise. -/
def pushResolveURL (useHTTP : Bool) (repoURL : String) : String :=
  if useHTTP then replaceOnce repoURL "cm://" "http://"
  else replaceOnce repoURL "cm://" "https://"

/-- Model of Go `strings.HasPrefix(s, pre)` (main.go line 75), on the
underlying character lists. -/
def goHasPrefix (s pre : String) : Bool :=
  pre.data.isPrefixOf s.data

/-- Model of `regexp.MustCompile("^https?://").MatchString` (main.go
line 176): the anchored pattern matches exactly the strings starting with
`http://` or `https://`. -/
def matchesHTTPPrefix (s : String) : Bool :=
  goHasPrefix s "http://" || goHasPrefix s "https://"

/-- The fields of the external `helm.Repo` descriptor read by main.go. -/
structure Repo where
  URL      : String := ""
  Username : String := ""
  Password : String := ""
  deriving Repr, DecidableEq

/-- Outcome of the repository-resolution prologue of `push`: a nil-pointer
dereference panic, an early error return, or continuation with the descriptor
and the (possibly rewritten) display repository name. -/
inductive PrologResult where
  | nilPanic
  | errReturn (e : String)
  | proceed (repo : Option Repo) (repoName : String)
  deriving Repr, DecidableEq

/-- Embedding of main.go lines 176-186, the repository-resolution prologue of
`push`.  The locators are oracles returning Go's `(pointer, error)` pair as
`Option Repo × Option String`.  In the URL branch the source reads `repo.URL`
(line 178) before `err` is checked (line 183), so a `nil` descriptor is a
nil-pointer dereference, modelled as `nilPanic`; in the name branch nothing is
dereferenced before the check. -/
def pushResolveRepo (tempRepoFromURL : String → Option Repo × Option String)
    (getRepoByName : String → Option Repo × Option String)
    (repoName : String) : PrologResult :=
  if matchesHTTPPrefix repoName then
    match tempRepoFromURL repoName with
    | (none, _) => .nilPanic
    | (some repo, err) =>
      match err with
      | some e => .errReturn e
      | none => .proceed (some repo) repo.URL
  else
    match getRepoByName repoName with
    | (_, some e) => .errReturn e
    | (ro, none) => .proceed ro repoName

/-- The action selected by the `RunE` body: run the downloader, run the push
routine, or return the usage error immediately.  Network traffic happens only
inside the two routines, never in the dispatch itself. -/
inductive RunAction where
  | download (fileURL : String)
  | push (chartName repoName : String)
  | usageError (msg : String)
  deriving Repr, DecidableEq

/-- Embedding of the `RunE` dispatch of `newPushCmd`, main.go lines 72-87:
exactly 4 positional arguments whose fourth starts with `cm://` select the
downloader; otherwise exactly 2 arguments select the push routine; any other
shape returns the usage error.  The `getD` defaults are never used since the
indices are guarded by the length tests. -/
def runDispatch (args : List String) : RunAction :=
  if args.length = 4 ∧ goHasPrefix (args.getD 3 "") "cm://" = true then
    .download (args.getD 3 "")
  else if args.length ≠ 2 then
    .usageError
      "This command needs 2 arguments: name of chart, name of chart repository (or repo URL)"
  else
    .push (args.getD 0 "") (args.getD 1 "")

/-- The directories existing on disk, for the temporary-directory claim. -/
structure FSState where
  dirs : List String
  deriving Repr, DecidableEq

/-- Model of `os.RemoveAll(tmp)` on the directory set. -/
def osRemoveAll (fs : FSState) (d : String) : FSState :=
  ⟨fs.dirs.filter (fun x => x ≠ d)⟩

/-- Model of a successful `ioutil.TempDir("", "helm-push-")` (main.go
line 232) returning the fresh name `tmp`. -/
def ioutilTempDir (fs : FSState) (tmp : String) : FSState :=
  ⟨tmp :: fs.dirs⟩

/-- Embedding of the push routine from main.go line 232 (the temporary
packaging directory is created) to its return.  The collaborator outcomes —
`helm.CreateChartPackage` (line 238) and `client.UploadChartPackage`
(line 244) — are oracle parameters; `defer os.RemoveAll(tmp)` (line 236) runs
after the body returns, on every exit path: packaging failure, upload failure,
and response interpretation (failure or success). -/
def pushFromTempDir (tmp : String)
    (createChartPackage : Except String String)
    (uploadChartPackage : String → Except String HTTPResponse)
    (fs : FSState) : Except String String × FSState :=
  let fs1 := ioutilTempDir fs tmp
  let body : Except String String :=
    match createChartPackage with
    | .error e => .error e
    | .ok chartPackagePath =>
      match uploadChartPackage chartPackagePath with
      | .error e => .error e
      | .ok resp => handlePushResponse resp
  (body, osRemoveAll fs1 tmp)

/-- C8: on every exit path of the push routine after the temporary packaging
directory has been created — packaging failure, upload failure,
response-interpretation failure, or success — the deferred
`os.RemoveAll(tmp)` leaves the temporary directory absent from the final
filesystem state. -/
theorem helmpush_tempdir_removed (tmp : String) (cp : Except String String)
    (up : String → Except String HTTPResponse) (fs : FSState) :
    tmp ∉ (pushFromTempDir tmp cp up fs).2.dirs ∧
    (pushFromTempDir tmp cp up fs).2 = osRemoveAll (ioutilTempDir fs tmp) tmp := by
  constructor
  · simp [pushFromTempDir, osRemoveAll, List.mem_filter]
  · rfl

/-- C9: in the push routine, for a repository identifier matching
`^https?://`, `repo.URL` is read before the error value of
`helm.TempRepoFromURL` is checked, so when the locator returns an error the
error-return branch is reached exactly when the returned descriptor is
non-nil; a nil descriptor is a nil-pointer dereference instead. -/
theorem helmpush_url_repo_error_requires_descriptor
    (tempRepoFromURL getRepoByName : String → Option Repo × Option String)
    (name : String) (hurl : matchesHTTPPrefix name = true)
    (e : String) (herr : (tempRepoFromURL name).2 = some e) :
    ((tempRepoFromURL name).1 = none →
      pushResolveRepo tempRepoFromURL getRepoByName name = .nilPanic) ∧
    (∀ r, (tempRepoFromURL name).1 = some r →
      pushResolveRepo tempRepoFromURL getRepoByName name = .errReturn e) := by
  have hsplit : tempRepoFromURL name = ((tempRepoFromURL name).1, (tempRepoFromURL name).2) := rfl
  constructor
  · intro hnone
    unfold pushResolveRepo
    rw [if_pos hurl, hsplit, hnone]
  · intro r hr
    unfold pushResolveRepo
    rw [if_pos hurl, hsplit, hr, herr]

/-- Closed witness for C9: a locator that returns both a descriptor and an
error reaches the error-return branch. -/
theorem helmpush_url_repo_error_requires_descriptor_witness :
    pushResolveRepo (fun _ => (some ⟨"https://u", "", ""⟩, some "boom"))
      (fun _ => (none, none)) "http://x" = .errReturn "boom" :=
  (helmpush_url_repo_error_requires_descriptor
    (fun _ => (some ⟨"https://u", "", ""⟩, some "boom")) (fun _ => (none, none))
    "http://x" (by decide) "boom" rfl).2 ⟨"https://u", "", ""⟩ rfl

/-- C6: the dispatch enters download mode exactly when there are 4 positional
arguments whose fourth starts with `cm://`, enters push mode exactly when
there are 2, and for every other shape returns the usage error immediately —
in particular no network call, since traffic happens only inside the download
and push routines. -/
theorem helmpush_argument_dispatch (args : List String) :
    ((∃ u, runDispatch args = .download u) ↔
      (args.length = 4 ∧ goHasPrefix (args.getD 3 "") "cm://" = true)) ∧
    ((∃ c r, runDispatch args = .push c r) ↔ args.length = 2) ∧
    (args.length ≠ 2 → ¬(args.length = 4 ∧ goHasPrefix (args.getD 3 "") "cm://" = true) →
      runDispatch args = .usageError
        "This command needs 2 arguments: name of chart, name of chart repository (or repo URL)") := by
  unfold runDispatch
  by_cases h4 : args.length = 4 ∧ goHasPrefix (args.getD 3 "") "cm://" = true
  · rw [if_pos h4]
    refine ⟨⟨fun _ => h4, fun _ => ⟨_, rfl⟩⟩, ⟨?_, ?_⟩, fun _ hn => absurd h4 hn⟩
    · rintro ⟨c, r, hcr⟩
      cases hcr
    · intro h2
      omega
  · rw [if_neg h4]
    by_cases h2 : args.length = 2
    · rw [if_neg (by omega)]
      refine ⟨⟨?_, fun hc => absurd hc h4⟩, ⟨fun _ => h2, fun _ => ⟨_, _, rfl⟩⟩,
        fun hne _ => absurd h2 hne⟩
      rintro ⟨u, hu⟩
      cases hu
    · rw [if_pos h2]
      refine ⟨⟨?_, fun hc => absurd hc h4⟩, ⟨?_, fun hl => absurd hl h2⟩, fun _ _ => rfl⟩
      · rintro ⟨u, hu⟩
        cases hu
      · rintro ⟨c, r, hcr⟩
        cases hcr

/-- Closed witness for C6: three arguments yield the usage error. -/
theorem helmpush_argument_dispatch_witness :
    runDispatch ["mychart", "myrepo", "extra"] = .usageError
      "This command needs 2 arguments: name of chart, name of chart repository (or repo URL)" :=
  (helmpush_argument_dispatch ["mychart", "myrepo", "extra"]).2.2 (by decide)
    (by intro h; exact absurd h.1 (by decide))

/-- C2: status 201 is the sole success of an upload and prints `Done.` (with
the newline of `fmt.Println`); every other status yields the envelope-rule
error — `<status>: <error message>` when the body decodes with a non-empty
`error` field, the `could not properly parse response JSON` fallback
otherwise — and in particular status 400 with body
`{"error":"version already exists"}` yields `400: version already exists`. -/
theorem helmpush_push_response_interpretation :
    (∀ b, handlePushResponse ⟨201, b⟩ = .ok "Done.\n") ∧
    (∀ code b, code ≠ 201 →
      (∀ e, jsonErrorEnvelope b = some e → e ≠ "" →
        handlePushResponse ⟨code, b⟩ = .error s!"{code}: {e}") ∧
      (jsonErrorEnvelope b = none ∨ jsonErrorEnvelope b = some "" →
        handlePushResponse ⟨code, b⟩ =
          .error s!"{code}: could not properly parse response JSON: {b}")) ∧
    handlePushResponse ⟨400, "\x7b\"error\":\"version already exists\"\x7d"⟩ =
      .error "400: version already exists" := by
  refine ⟨fun b => by simp [handlePushResponse], fun code b hc => ⟨?_, ?_⟩, ?_⟩
  · intro e he hne
    simp only [handlePushResponse, if_pos hc, getChartmuseumError, he, if_neg hne]
  · rintro (he | he) <;>
      simp only [handlePushResponse, if_pos hc, getChartmuseumError, he, if_pos rfl, if_true]
  · rfl

/-- Closed witness for C2: an unparseable failure body takes the fallback. -/
theorem helmpush_push_response_interpretation_witness :
    handlePushResponse ⟨500, "\x7b\x7d"⟩ =
      .error "500: could not properly parse response JSON: \x7b\x7d" :=
  (helmpush_push_response_interpretation.2.1 500 "\x7b\x7d" (by decide)).2 (Or.inr rfl)

/-- C3: status 200 is the success of a download and the whole body is the
printed output, verbatim with nothing appended (`fmt.Print`); every other
status yields the envelope-rule error, and in particular status 404 with the
unparseable body `oops` yields
`404: could not properly parse response JSON: oops`. -/
theorem helmpush_download_response_interpretation :
    (∀ b, handleDownloadResponse ⟨200, b⟩ = .ok b) ∧
    (∀ code b, code ≠ 200 →
      (∀ e, jsonErrorEnvelope b = some e → e ≠ "" →
        handleDownloadResponse ⟨code, b⟩ = .error s!"{code}: {e}") ∧
      (jsonErrorEnvelope b = none ∨ jsonErrorEnvelope b = some "" →
        handleDownloadResponse ⟨code, b⟩ =
          .error s!"{code}: could not properly parse response JSON: {b}")) ∧
    handleDownloadResponse ⟨404, "oops"⟩ =
      .error "404: could not properly parse response JSON: oops" := by
  refine ⟨fun b => by simp [handleDownloadResponse], fun code b hc => ⟨?_, ?_⟩, ?_⟩
  · intro e he hne
    simp only [handleDownloadResponse, if_pos hc, getChartmuseumError, he, if_neg hne]
  · rintro (he | he) <;>
      simp only [handleDownloadResponse, if_pos hc, getChartmuseumError, he, if_pos rfl, if_true]
  · rfl

/-- Closed witness for C3: a parseable failure body carries the server
message. -/
theorem helmpush_download_response_interpretation_witness :
    handleDownloadResponse ⟨403, "\x7b\"error\":\"unauthorized\"\x7d"⟩ =
      .error "403: unauthorized" :=
  (helmpush_download_response_interpretation.2.1 403
    "\x7b\"error\":\"unauthorized\"\x7d" (by decide)).1 "unauthorized" rfl (by decide)

/-- The credentials-file fallback either leaves the settings unchanged or
changes only the access token. -/
theorem setAccessTokenFromConfigFile_shape (st : CfconfigState) (p : PushCmd) :
    setAccessTokenFromConfigFile st p = p ∨
    ∃ t, setAccessTokenFromConfigFile st p = { p with accessToken := t } := by
  cases st with
  | parsed c =>
    cases hf : (c.contexts.map Prod.snd).find? (fun ctx => ctx.name = c.currentContext) with
    | some ctx =>
      right
      exact ⟨ctx.token, by simp [setAccessTokenFromConfigFile, hf]⟩
    | none => left; simp [setAccessTokenFromConfigFile, hf]
  | noUser => left; rfl
  | missing => left; rfl
  | unreadable => left; rfl
  | malformed => left; rfl

/-- The resolved settings coincide with the environment phase on every field
other than the access token. -/
theorem setFieldsFromEnv_shape (env : String → Option String) (st : CfconfigState)
    (p : PushCmd) :
    setFieldsFromEnv env st p = setEnvFields env p ∨
    ∃ t, setFieldsFromEnv env st p = { setEnvFields env p with accessToken := t } := by
  unfold setFieldsFromEnv
  by_cases h : (setEnvFields env p).accessToken = ""
  · rw [if_pos h]
    exact setAccessTokenFromConfigFile_shape st (setEnvFields env p)
  · rw [if_neg h]
    left
    rfl

/-- C1: for every flag/environment combination, each string-typed setting
keeps a non-empty flag value and takes its environment variable only when the
flag value is empty (for the access token, a non-empty environment value; an
empty one leaves the field empty and subject to the credentials-file
fallback of C7), whereas each boolean setting is overridden by its
environment variable whenever the variable is present — set to the ignored
error `strconv.ParseBool` parse of the value — regardless of the flag
value. -/
theorem helmpush_flag_env_precedence (env : String → Option String)
    (st : CfconfigState) (p : PushCmd) :
    ((p.username ≠ "" → (setFieldsFromEnv env st p).username = p.username) ∧
      (p.username = "" → ∀ v, env "HELM_REPO_USERNAME" = some v →
        (setFieldsFromEnv env st p).username = v)) ∧
    ((p.password ≠ "" → (setFieldsFromEnv env st p).password = p.password) ∧
      (p.password = "" → ∀ v, env "HELM_REPO_PASSWORD" = some v →
        (setFieldsFromEnv env st p).password = v)) ∧
    ((p.accessToken ≠ "" → (setFieldsFromEnv env st p).accessToken = p.accessToken) ∧
      (p.accessToken = "" → ∀ v, env "HELM_REPO_ACCESS_TOKEN" = some v → v ≠ "" →
        (setFieldsFromEnv env st p).accessToken = v)) ∧
    ((p.authHeader ≠ "" → (setFieldsFromEnv env st p).authHeader = p.authHeader) ∧
      (p.authHeader = "" → ∀ v, env "HELM_REPO_AUTH_HEADER" = some v →
        (setFieldsFromEnv env st p).authHeader = v)) ∧
    ((p.contextPath ≠ "" → (setFieldsFromEnv env st p).contextPath = p.contextPath) ∧
      (p.contextPath = "" → ∀ v, env "HELM_REPO_CONTEXT_PATH" = some v →
        (setFieldsFromEnv env st p).contextPath = v)) ∧
    ((p.caFile ≠ "" → (setFieldsFromEnv env st p).caFile = p.caFile) ∧
      (p.caFile = "" → ∀ v, env "HELM_REPO_CA_FILE" = some v →
        (setFieldsFromEnv env st p).caFile = v)) ∧
    ((p.certFile ≠ "" → (setFieldsFromEnv env st p).certFile = p.certFile) ∧
      (p.certFile = "" → ∀ v, env "HELM_REPO_CERT_FILE" = some v →
        (setFieldsFromEnv env st p).certFile = v)) ∧
    ((p.keyFile ≠ "" → (setFieldsFromEnv env st p).keyFile = p.keyFile) ∧
      (p.keyFile = "" → ∀ v, env "HELM_REPO_KEY_FILE" = some v →
        (setFieldsFromEnv env st p).keyFile = v)) ∧
    (∀ v, env "HELM_REPO_USE_HTTP" = some v →
      (setFieldsFromEnv env st p).useHTTP = (strconvParseBool v).getD false) ∧
    (∀ v, env "HELM_REPO_INSECURE" = some v →
      (setFieldsFromEnv env st p).InsecureSkipVerify = (strconvParseBool v).getD false) := by
  have key : ∀ {α : Type} (g : PushCmd → α),
      (∀ q t, g { q with accessToken := t } = g q) →
      g (setFieldsFromEnv env st p) = g (setEnvFields env p) := by
    intro α g hg
    obtain h | ⟨t, h⟩ := setFieldsFromEnv_shape env st p
    · rw [h]
    · rw [h, hg]
  have hacc : (setEnvFields env p).accessToken ≠ "" →
      (setFieldsFromEnv env st p).accessToken = (setEnvFields env p).accessToken := by
    intro hne
    unfold setFieldsFromEnv
    rw [if_neg hne]
  refine ⟨⟨fun hne => ?_, fun he v hv => ?_⟩, ⟨fun hne => ?_, fun he v hv => ?_⟩,
    ⟨fun hne => ?_, fun he v hv hvne => ?_⟩, ⟨fun hne => ?_, fun he v hv => ?_⟩,
    ⟨fun hne => ?_, fun he v hv => ?_⟩, ⟨fun hne => ?_, fun he v hv => ?_⟩,
    ⟨fun hne => ?_, fun he v hv => ?_⟩, ⟨fun hne => ?_, fun he v hv => ?_⟩,
    fun v hv => ?_, fun v hv => ?_⟩
  · rw [key (fun q => q.username) (fun q t => rfl)]
    cases henv : env "HELM_REPO_USERNAME" <;> simp [setEnvFields, henv, hne]
  · rw [key (fun q => q.username) (fun q t => rfl)]; simp [setEnvFields, hv, he]
  · rw [key (fun q => q.password) (fun q t => rfl)]
    cases henv : env "HELM_REPO_PASSWORD" <;> simp [setEnvFields, henv, hne]
  · rw [key (fun q => q.password) (fun q t => rfl)]; simp [setEnvFields, hv, he]
  · have h1 : (setEnvFields env p).accessToken = p.accessToken := by
      cases hv : env "HELM_REPO_ACCESS_TOKEN" <;> simp [setEnvFields, hv, hne]
    rw [hacc (h1 ▸ hne), h1]
  · have h1 : (setEnvFields env p).accessToken = v := by
      simp [setEnvFields, hv, he]
    rw [hacc (h1 ▸ hvne), h1]
  · rw [key (fun q => q.authHeader) (fun q t => rfl)]
    cases henv : env "HELM_REPO_AUTH_HEADER" <;> simp [setEnvFields, henv, hne]
  · rw [key (fun q => q.authHeader) (fun q t => rfl)]; simp [setEnvFields, hv, he]
  · rw [key (fun q => q.contextPath) (fun q t => rfl)]
    cases henv : env "HELM_REPO_CONTEXT_PATH" <;> simp [setEnvFields, henv, hne]
  · rw [key (fun q => q.contextPath) (fun q t => rfl)]; simp [setEnvFields, hv, he]
  · rw [key (fun q => q.caFile) (fun q t => rfl)]
    cases henv : env "HELM_REPO_CA_FILE" <;> simp [setEnvFields, henv, hne]
  · rw [key (fun q => q.caFile) (fun q t => rfl)]; simp [setEnvFields, hv, he]
  · rw [key (fun q => q.certFile) (fun q t => rfl)]
    cases henv : env "HELM_REPO_CERT_FILE" <;> simp [setEnvFields, henv, hne]
  · rw [key (fun q => q.certFile) (fun q t => rfl)]; simp [setEnvFields, hv, he]
  · rw [key (fun q => q.keyFile) (fun q t => rfl)]
    cases henv : env "HELM_REPO_KEY_FILE" <;> simp [setEnvFields, henv, hne]
  · rw [key (fun q => q.keyFile) (fun q t => rfl)]; simp [setEnvFields, hv, he]
  · rw [key (fun q => q.useHTTP) (fun q t => rfl)]; simp [setEnvFields, hv]
  · rw [key (fun q => q.InsecureSkipVerify) (fun q t => rfl)]; simp [setEnvFields, hv]

/-- Closed witness for C1: a non-empty username flag survives a set
environment variable, and a present `HELM_REPO_USE_HTTP` overrides a false
flag. -/
theorem helmpush_flag_env_precedence_witness :
    (setFieldsFromEnv
        (fun k => if k = "HELM_REPO_USERNAME" then some "envuser"
                  else if k = "HELM_REPO_USE_HTTP" then some "true" else none)
        .missing { username := "flaguser" }).username = "flaguser" ∧
    (setFieldsFromEnv
        (fun k => if k = "HELM_REPO_USERNAME" then some "envuser"
                  else if k = "HELM_REPO_USE_HTTP" then some "true" else none)
        .missing { username := "flaguser" }).useHTTP = true :=
  ⟨(helmpush_flag_env_precedence _ .missing { username := "flaguser" }).1.1 (by decide),
    by
      have h := (helmpush_flag_env_precedence
        (fun k => if k = "HELM_REPO_USERNAME" then some "envuser"
                  else if k = "HELM_REPO_USE_HTTP" then some "true" else none)
        .missing { username := "flaguser" }).2.2.2.2.2.2.2.2.1 "true" (by decide)
      rw [h]
      decide⟩

/-- C7: the credentials-file lookup is attempted only when the access token is
still empty after the environment phase (a set token makes the result
independent of the file); a missing, unreadable or malformed file leaves the
settings unchanged without error (the embedding is a total function, matching
the Go code's bare `return`s); a parsed file changes nothing when no context
name equals the current-context name, and otherwise only sets the access
token, to the token of a context whose name equals the current-context
name. -/
theorem helmpush_cfconfig_token_lookup :
    (∀ env st p, (setEnvFields env p).accessToken ≠ "" →
      setFieldsFromEnv env st p = setEnvFields env p) ∧
    (∀ p, setAccessTokenFromConfigFile .noUser p = p ∧
      setAccessTokenFromConfigFile .missing p = p ∧
      setAccessTokenFromConfigFile .unreadable p = p ∧
      setAccessTokenFromConfigFile .malformed p = p) ∧
    (∀ c p, (∀ ctx ∈ c.contexts.map Prod.snd, ctx.name ≠ c.currentContext) →
      setAccessTokenFromConfigFile (.parsed c) p = p) ∧
    (∀ c p, setAccessTokenFromConfigFile (.parsed c) p = p ∨
      ∃ ctx, ctx ∈ c.contexts.map Prod.snd ∧ ctx.name = c.currentContext ∧
        setAccessTokenFromConfigFile (.parsed c) p =
          { p with accessToken := ctx.token }) := by
  refine ⟨fun env st p hne => ?_, fun p => ⟨rfl, rfl, rfl, rfl⟩, fun c p h => ?_, fun c p => ?_⟩
  · unfold setFieldsFromEnv
    rw [if_neg hne]
  · have hf : (c.contexts.map Prod.snd).find?
        (fun ctx => ctx.name = c.currentContext) = none := by
      rw [List.find?_eq_none]
      intro x hx
      simp [h x hx]
    simp [setAccessTokenFromConfigFile, hf]
  · cases hf : (c.contexts.map Prod.snd).find? (fun ctx => ctx.name = c.currentContext) with
    | none => left; simp [setAccessTokenFromConfigFile, hf]
    | some ctx =>
      right
      refine ⟨ctx, List.mem_of_find?_eq_some hf, ?_, by simp [setAccessTokenFromConfigFile, hf]⟩
      have := List.find?_some hf
      simpa using this

/-- Closed witness for C7: with an access token from the environment, a
parsed credentials file with a matching context does not touch the result. -/
theorem helmpush_cfconfig_token_lookup_witness :
    setFieldsFromEnv (fun k => if k = "HELM_REPO_ACCESS_TOKEN" then some "envtok" else none)
        (.parsed ⟨"ctx", [("k", ⟨"ctx", "filetok"⟩)]⟩) {} =
      setEnvFields (fun k => if k = "HELM_REPO_ACCESS_TOKEN" then some "envtok" else none) {} :=
  helmpush_cfconfig_token_lookup.1 _ _ _ (by decide)

/-- `replaceOnceList` at the first occurrence of the pattern: when no
occurrence starts before position `A.length`, exactly the occurrence there is
replaced. -/
theorem replaceOnceList_first (rep : List Char) :
    ∀ (A : List Char) (pat B : List Char), pat ≠ [] →
    (∀ i < A.length, ¬pat.isPrefixOf ((A ++ (pat ++ B)).drop i) = true) →
    replaceOnceList pat rep (A ++ (pat ++ B)) = A ++ (rep ++ B) := by
  intro A
  induction A with
  | nil =>
    intro pat B hpat _
    cases pat with
    | nil => exact absurd rfl hpat
    | cons c ps =>
      simp only [List.nil_append, List.cons_append, List.append_eq, replaceOnceList]
      rw [if_pos (List.isPrefixOf_iff_prefix.mpr ⟨B, by simp⟩)]
      congr 1
      rw [List.length_cons, List.drop_succ_cons]
      exact List.drop_left ps B
  | cons x A ih =>
    intro pat B hpat h
    have h0 : ¬pat.isPrefixOf ((x :: A) ++ (pat ++ B)) = true := by
      have := h 0 (by simp)
      simpa using this
    simp only [List.cons_append, List.append_eq, replaceOnceList]
    rw [if_neg (by simpa using h0)]
    congr 1
    refine ih pat B hpat ?_
    intro i hi
    have := h (i + 1) (by simpa using Nat.succ_lt_succ hi)
    simpa using this

/-- C5: a stored repository URL containing the `cm://` marker (written as the
decomposition at its first occurrence) is rewritten by the push routine to
exactly `http://` there when `useHTTP` is set and to exactly `https://`
otherwise, with every other character of the URL kept. -/
theorem helmpush_cm_scheme_rewrite (useHTTP : Bool) (a b : String)
    (hfirst : ∀ i < a.length,
      ¬("cm://".data.isPrefixOf ((a ++ "cm://" ++ b).data.drop i)) = true) :
    pushResolveURL useHTTP (a ++ "cm://" ++ b) =
      if useHTTP then a ++ "http://" ++ b else a ++ "https://" ++ b := by
  have hdata : (a ++ "cm://" ++ b).data = a.data ++ ("cm://".data ++ b.data) := by
    simp [String.data_append]
  have hrepl : ∀ rep : List Char,
      replaceOnceList "cm://".data rep (a ++ "cm://" ++ b).data =
        a.data ++ (rep ++ b.data) := by
    intro rep
    rw [hdata]
    refine replaceOnceList_first rep a.data "cm://".data b.data (by decide) ?_
    intro i hi
    rw [← hdata]
    exact hfirst i hi
  have hstr : ∀ newScheme : String,
      replaceOnce (a ++ "cm://" ++ b) "cm://" newScheme = a ++ newScheme ++ b := by
    intro newScheme
    apply String.ext
    show replaceOnceList "cm://".data newScheme.data (a ++ "cm://" ++ b).data =
      (a ++ newScheme ++ b).data
    rw [hrepl]
    simp [String.data_append]
  cases useHTTP with
  | true =>
    rw [if_pos rfl]
    exact hstr "http://"
  | false =>
    rw [if_neg (by decide)]
    exact hstr "https://"

/-- Closed witness for C5: the marker at the head of the URL is rewritten both
ways. -/
theorem helmpush_cm_scheme_rewrite_witness :
    pushResolveURL true "cm://my.repo.example/path" = "http://my.repo.example/path" ∧
    pushResolveURL false "cm://my.repo.example/path" = "https://my.repo.example/path" := by
  constructor
  · have h := helmpush_cm_scheme_rewrite true "" "my.repo.example/path"
      (by intro i hi; simp at hi)
    simpa using h
  · have h := helmpush_cm_scheme_rewrite false "" "my.repo.example/path"
      (by intro i hi; simp at hi)
    simpa using h

/-- The characters of a `goJoin` are the `List.intercalate` of the parts. -/
theorem goJoin_data (sep : String) : ∀ l : List String,
    (goJoin sep l).data = List.intercalate sep.data (l.map String.data)
  | [] => by simp [goJoin, List.intercalate]
  | [x] => by simp [goJoin, List.intercalate]
  | x :: y :: xs => by
    have ih := goJoin_data sep (y :: xs)
    have hcc : List.intercalate sep.data (x.data :: y.data :: (xs.map String.data)) =
        x.data ++ sep.data ++ List.intercalate sep.data (y.data :: xs.map String.data) := by
      simp [List.intercalate, List.intersperse]
    simp only [goJoin, List.map_cons] at *
    rw [hcc, String.data_append, String.data_append, ih]

/-- Joining with `/` undoes splitting on `/`: the Go idiom
`strings.Join(strings.Split(s, "/"), "/") == s`. -/
theorem goJoin_goSplit (s : String) : goJoin "/" (goSplit '/' s) = s := by
  apply String.ext
  rw [goJoin_data]
  have hmm : (goSplit '/' s).map String.data = s.data.splitOn '/' := by
    simp [goSplit, List.map_map, Function.comp_def]
  rw [hmm]
  exact List.intercalate_splitOn s.data '/'

/-- `goJoin` distributes over the append of two nonempty part lists. -/
theorem goJoin_append (sep : String) : ∀ (l₁ l₂ : List String), l₁ ≠ [] → l₂ ≠ [] →
    goJoin sep (l₁ ++ l₂) = goJoin sep l₁ ++ sep ++ goJoin sep l₂
  | [], _, h₁, _ => absurd rfl h₁
  | [x], l₂, _, h₂ => by
    cases l₂ with
    | nil => exact absurd rfl h₂
    | cons z zs => simp [goJoin]
  | x :: y :: l₁, l₂, _, h₂ => by
    have ih := goJoin_append sep (y :: l₁) l₂ (by simp) h₂
    have hne : (y :: l₁) ++ l₂ ≠ [] := by simp
    calc goJoin sep ((x :: y :: l₁) ++ l₂)
        = x ++ sep ++ goJoin sep ((y :: l₁) ++ l₂) := by
          cases hl : (y :: l₁) ++ l₂ with
          | nil => exact absurd hl hne
          | cons w ws => simp only [List.cons_append] at hl ⊢; rw [hl, goJoin]
      _ = x ++ sep ++ (goJoin sep (y :: l₁) ++ sep ++ goJoin sep l₂) := by rw [ih]
      _ = goJoin sep (x :: y :: l₁) ++ sep ++ goJoin sep l₂ := by
          simp only [goJoin, String.append_assoc]

/-- A list of length at least two splits off its last two elements. -/
theorem exists_append_two {α : Type} : ∀ (xs : List α), 2 ≤ xs.length →
    ∃ l a b, xs = l ++ [a, b] := by
  intro xs
  induction xs with
  | nil => intro h; simp at h
  | cons x rest ih =>
    intro h
    cases rest with
    | nil => simp at h
    | cons y rest2 =>
      cases rest2 with
      | nil => exact ⟨[], x, y, rfl⟩
      | cons z rest3 =>
        obtain ⟨l, a, b, hl⟩ := ih (by simp)
        exact ⟨x :: l, a, b, by rw [List.cons_append, ← hl]⟩

/-- `downloadDecompose` evaluated on a path whose split ends in two known
segments. -/
theorem downloadDecompose_eq (p : String) (l : List String) (a b : String)
    (h : goSplit '/' p = l ++ [a, b]) :
    downloadDecompose p =
      if a = "charts" then some (goJoin "/" l, "charts/" ++ b)
      else some (goJoin "/" (l ++ [a]), b) := by
  have hlen : (l ++ [a, b]).length = l.length + 2 := by simp
  have hgda : (l ++ [a, b]).getD l.length "" = a := by
    rw [List.getD_append_right _ _ _ _ (le_refl _)]
    simp
  have hgdb : (l ++ [a, b]).getD (l.length + 1) "" = b := by
    rw [List.getD_append_right _ _ _ _ (by omega)]
    simp [List.getD]
  have htake2 : (l ++ [a, b]).take l.length = l := List.take_left l [a, b]
  have htake1 : (l ++ [a, b]).take (l.length + 1) = l ++ [a] := by
    have h2 : l ++ [a, b] = (l ++ [a]) ++ [b] := by simp
    have h3 : (l ++ [a]).length = l.length + 1 := by simp
    rw [h2, ← h3]
    exact List.take_left (l ++ [a]) [b]
  have harith1 : l.length + 2 - 2 = l.length := by omega
  have harith2 : l.length + 2 - 1 = l.length + 1 := by omega
  simp only [downloadDecompose, h, hlen, harith1, harith2, hgda, hgdb, htake2, htake1]
  rw [if_neg (by omega)]

/-- C4: a download URL path whose second-to-last segment is literally
`charts` resolves to the file path `charts/<name>` with the trailing two
segments removed from the base endpoint path; with any other second-to-last
segment, the file path is `<name>` and only the final segment is removed. -/
theorem helmpush_download_path_decomposition :
    (∀ (p : String) (l : List String) (chartFile : String),
      goSplit '/' p = l ++ ["charts", chartFile] →
      downloadDecompose p = some (goJoin "/" l, "charts/" ++ chartFile)) ∧
    (∀ (p : String) (l : List String) (dir chartFile : String), dir ≠ "charts" →
      goSplit '/' p = l ++ [dir, chartFile] →
      downloadDecompose p = some (goJoin "/" (l ++ [dir]), chartFile)) := by
  constructor
  · intro p l chartFile h
    rw [downloadDecompose_eq p l "charts" chartFile h, if_pos rfl]
  · intro p l dir chartFile hdir h
    rw [downloadDecompose_eq p l dir chartFile h, if_neg hdir]

/-- Closed witness for C4: the two example paths of the specification. -/
theorem helmpush_download_path_decomposition_witness :
    downloadDecompose "/charts/foo-1.0.0.tgz" = some ("", "charts/foo-1.0.0.tgz") ∧
    downloadDecompose "/mychart/foo-1.0.0.tgz" = some ("/mychart", "foo-1.0.0.tgz") := by
  constructor
  · have h := helmpush_download_path_decomposition.1 "/charts/foo-1.0.0.tgz" [""]
      "foo-1.0.0.tgz" (by decide)
    exact h
  · have h := helmpush_download_path_decomposition.2 "/mychart/foo-1.0.0.tgz" [""]
      "mychart" "foo-1.0.0.tgz" (by decide) (by decide)
    exact h

/-- The path component extracted from a `cm://` pseudo-URL is either empty or
begins with `/`. -/
theorem cmURLPath_head (u : String) :
    (cmURLPath u).data = [] ∨ ∃ r, (cmURLPath u).data = '/' :: r := by
  have hdef : (cmURLPath u).data =
      ((u.data.drop 5).takeWhile (fun c => c != '?' && c != '#')).dropWhile
        (fun c => c != '/') := rfl
  cases hX : (((u.data.drop 5).takeWhile (fun c => c != '?' && c != '#')).dropWhile
      (fun c => c != '/')) with
  | nil => exact Or.inl (hdef.trans hX)
  | cons c cs =>
    right
    have hhd := List.head?_dropWhile_not (fun c => c != '/')
      ((u.data.drop 5).takeWhile (fun c => c != '?' && c != '#'))
    rw [hX] at hhd
    simp only [List.head?_cons] at hhd
    have hc : c = '/' := by simpa using hhd
    exact ⟨cs, by rw [hdef, hX, hc]⟩

/-- Splitting a string that begins with `/` on `/` yields an empty first
segment. -/
theorem goSplit_of_slash_head (p : String) (r : List Char) (h : p.data = '/' :: r) :
    goSplit '/' p = String.mk [] :: (r.splitOn '/').map String.mk := by
  simp only [goSplit, h]
  rw [show ('/' :: r).splitOn '/' = [] :: r.splitOn '/' by
    simp [List.splitOn, List.splitOnP_cons]]
  rfl

/-- C10: for a download pseudo-URL whose path contains a `/` separator, the
decomposition round-trips — the stripped base endpoint path, a `/`, and the
derived file path concatenate back to the original URL path — in both the
charts-segment and no-charts-segment cases. -/
theorem helmpush_download_path_roundtrip (u : String)
    (hcm : goHasPrefix u "cm://" = true)
    (hsep : '/' ∈ (cmURLPath u).data) (base file : String)
    (hdec : downloadDecompose (cmURLPath u) = some (base, file)) :
    base ++ "/" ++ file = cmURLPath u := by
  rcases cmURLPath_head u with hnil | ⟨r, hr⟩
  · rw [hnil] at hsep
    simp at hsep
  · have hsplit0 := goSplit_of_slash_head (cmURLPath u) r hr
    have hlen2 : 2 ≤ (goSplit '/' (cmURLPath u)).length := by
      rw [hsplit0]
      have hne : r.splitOn '/' ≠ [] := by
        simp only [List.splitOn]
        exact List.splitOnP_ne_nil _ r
      cases hspl : r.splitOn '/' with
      | nil => exact absurd hspl hne
      | cons w ws => simp
    obtain ⟨l, a, b, hlab⟩ := exists_append_two _ hlen2
    rw [downloadDecompose_eq (cmURLPath u) l a b hlab] at hdec
    by_cases hca : a = "charts"
    · rw [if_pos hca] at hdec
      have hbase : base = goJoin "/" l := by
        injection hdec with h1
        exact (congrArg Prod.fst h1).symm
      have hfile : file = "charts/" ++ b := by
        injection hdec with h1
        exact (congrArg Prod.snd h1).symm
      have hl : l ≠ [] := by
        intro hl0
        rw [hl0, List.nil_append] at hlab
        rw [hsplit0] at hlab
        have := (List.cons.injEq _ _ _ _).mp hlab
        rw [hca] at this
        exact absurd this.1.symm (by decide)
      conv_rhs => rw [← goJoin_goSplit (cmURLPath u), hlab,
        goJoin_append "/" l [a, b] hl (by simp)]
      rw [hbase, hfile, hca]
      apply String.ext
      simp [String.data_append, goJoin]
    · rw [if_neg hca] at hdec
      have hbase : base = goJoin "/" (l ++ [a]) := by
        injection hdec with h1
        exact (congrArg Prod.fst h1).symm
      have hfile : file = b := by
        injection hdec with h1
        exact (congrArg Prod.snd h1).symm
      have h2 : l ++ [a, b] = (l ++ [a]) ++ [b] := by simp
      conv_rhs => rw [← goJoin_goSplit (cmURLPath u), hlab, h2,
        goJoin_append "/" (l ++ [a]) [b] (by simp) (by simp)]
      rw [hbase, hfile]
      rfl

/-- Closed witness for C10: the charts and no-charts example URLs
round-trip. -/
theorem helmpush_download_path_roundtrip_witness :
    ("/myrepo" ++ "/" ++ "charts/foo-1.0.0.tgz" =
      cmURLPath "cm://host/myrepo/charts/foo-1.0.0.tgz") ∧
    ("/mychart" ++ "/" ++ "foo-1.0.0.tgz" =
      cmURLPath "cm://host/mychart/foo-1.0.0.tgz") := by
  constructor
  · exact helmpush_download_path_roundtrip "cm://host/myrepo/charts/foo-1.0.0.tgz"
      (by decide) (by decide) "/myrepo" "charts/foo-1.0.0.tgz" (by decide)
  · exact helmpush_download_path_roundtrip "cm://host/mychart/foo-1.0.0.tgz"
      (by decide) (by decide) "/mychart" "foo-1.0.0.tgz" (by decide)
